import Mathlib

/-!
Shallow embedding of `packages/ckeditor5-engine/src/treemodel/schema.js`.

The JS file defines two classes:
* `SchemaItem` — holds the allow/disallow rule paths registered for one entity
  (`_allowed`, `_disallowed`) and implements the path-matching scan
  (`_addPath`, `_getPaths`, `_hasMatchingPath`).
* `Schema` — owns the maps `_items : Map name -> SchemaItem` and
  `_extensionChains : Map name -> Array name`, and the operations
  `registerItem`, `allow`, `disallow`, `hasItem`, `checkQuery`,
  `checkAtPosition`, `_makeItemsPathFromPosition`.

JS `Map`s are embedded as association lists with `Map.set` semantics
(`setAssoc`: replace in place when the key is present, append otherwise);
`Map.get` is `List.lookup`.  A JS exception is embedded as `Except.error`
(carrying the error kind and the state of the schema object at throw time)
for the mutating operations, and as `none : Option Bool` for the query
operations (which the spec says never throw).  `undefined`/`null` optional
arguments are `Option.none`.
-/

/-- One allow/disallow rule as stored by `SchemaItem._addPath`:
the object `\x7b path, attribute \x7d` pushed on line 85 of the source. -/
structure Rule where
  path : List String
  attr : Option String
deriving DecidableEq, Repr

/-- The per-entity rule store: fields `_allowed` and `_disallowed` of class
`SchemaItem`. -/
structure SchemaItem where
  allowed : List Rule
  disallowed : List Rule
deriving DecidableEq, Repr

/-- A fresh `SchemaItem` as built by the `SchemaItem` constructor:
both rule arrays empty. -/
def SchemaItem.empty : SchemaItem := ⟨[], []⟩

/-- The two rule types, the strings `ALLOW` / `DISALLOW` in the source. -/
inductive RuleType where
  | allow
  | disallow
deriving DecidableEq, Repr

/-- The `path` argument of `_addPath` / the `inside` field of a query:
either an array of names or a single space-delimited string. -/
inductive PathArg where
  | str (s : String)
  | list (l : List String)
deriving DecidableEq, Repr

/-- Splits a character list at every occurrence of the separator; adjacent
separators and leading/trailing separators produce empty segments, and an
empty input yields one empty segment, exactly as JS `split` on a one-char
separator does. -/
def splitChars (sep : Char) : List Char → List (List Char)
  | [] => [[]]
  | c :: cs =>
    if c == sep then [] :: splitChars sep cs
    else
      match splitChars sep cs with
      | [] => [[c]]
      | w :: ws => (c :: w) :: ws

/-- JS `path.split( ' ' )` on line 80 of the source. -/
def splitOnSpace (s : String) : List String :=
  (splitChars ' ' s.toList).map fun l => String.mk l

/-- Path normalisation at the top of `_addPath` and in `checkQuery`:
a string is split on spaces, an array is used as is. -/
def PathArg.toList : PathArg → List String
  | .str s => splitOnSpace s
  | .list l => l

/-- `SchemaItem.addAllowed`: push a copy of the normalised path, with the
attribute, onto `_allowed`. -/
def SchemaItem.addAllowed (it : SchemaItem) (path : PathArg) (A : Option String) : SchemaItem :=
  { it with allowed := it.allowed ++ [⟨path.toList, A⟩] }

/-- `SchemaItem.addDisallowed`: push a copy of the normalised path, with the
attribute, onto `_disallowed`. -/
def SchemaItem.addDisallowed (it : SchemaItem) (path : PathArg) (A : Option String) : SchemaItem :=
  { it with disallowed := it.disallowed ++ [⟨path.toList, A⟩] }

/-- Selects `_allowed` or `_disallowed` from the `type` argument, as the
first line of `_getPaths` does. -/
def SchemaItem.ruleList (it : SchemaItem) : RuleType → List Rule
  | .allow => it.allowed
  | .disallow => it.disallowed

/-- `SchemaItem._getPaths`: the paths of all stored rules of the given type
whose attribute is strictly equal (`===`) to the query attribute. -/
def SchemaItem.getPaths (it : SchemaItem) (t : RuleType) (A : Option String) : List (List String) :=
  (it.ruleList t).filterMap fun r => if r.attr == A then some r.path else none

/-- The extension-chain map of the owning schema, as a lookup function
(`this._schema._extensionChains.get`). -/
abbrev ChainMap := String → Option (List String)

/-- One step of the inner loop of `_hasMatchingPath` (lines 128–142): given
the chain of the current candidate name, shift the rule path when its head
occurs in that chain.  When the rule path is already empty, `itemPath[0]` is
`undefined`, `indexOf` yields `-1` and nothing happens. -/
def consumeStep (chains : ChainMap) (c : String) (ip : List String) : List String :=
  match ip with
  | [] => []
  | r :: rest =>
    match chains c with
    | some chain => if chain.contains r then rest else r :: rest
    | none => r :: rest

/-- The inner loop of `_hasMatchingPath` over the whole candidate path.
`this._schema._extensionChains.get( checkName )` is read for every candidate
element; when the name has no chain the JS code calls `indexOf` on
`undefined` and throws a `TypeError`, embedded as `none`. -/
def consumeRulePath (chains : ChainMap) : List String → List String → Option (List String)
  | [], ip => some ip
  | c :: cs, ip =>
    match chains c with
    | none => none
    | some _ => consumeRulePath chains cs (consumeStep chains c ip)

/-- The outer loop of `_hasMatchingPath` over the registered rule paths:
return `true` for the first rule path that is completely consumed,
`false` when none is, propagating the `TypeError` case. -/
def hasMatchingPathAux (chains : ChainMap) (cs : List String) : List (List String) → Option Bool
  | [] => some false
  | p :: ps =>
    match consumeRulePath chains cs p with
    | none => none
    | some rem => if rem.isEmpty then some true else hasMatchingPathAux chains cs ps

/-- `SchemaItem._hasMatchingPath`: scan every stored rule path of the given
type and attribute against the candidate path. -/
def SchemaItem.hasMatchingPath (it : SchemaItem) (chains : ChainMap) (t : RuleType)
    (cs : List String) (A : Option String) : Option Bool :=
  hasMatchingPathAux chains cs (it.getPaths t A)

/-- Error kinds: the two `CKEditorError` names thrown by the source, plus
the JS `TypeError` that `registerItem` can hit when `_extensionChains.get`
returns `undefined`. -/
inductive ErrKind where
  | schemaItemExists
  | schemaNoItem
  | typeError
deriving DecidableEq, Repr

/-- The `Schema` class state: the `_items` and `_extensionChains` maps. -/
structure Schema where
  items : List (String × SchemaItem)
  extensionChains : List (String × List String)
deriving DecidableEq, Repr

/-- JS `Map.set`: replace the value in place when the key is present,
append a new entry otherwise. -/
def setAssoc (l : List (String × α)) (k : String) (v : α) : List (String × α) :=
  if (List.lookup k l).isSome then
    l.map fun p => if p.1 == k then (k, v) else p
  else
    l ++ [(k, v)]

/-- `Schema.hasItem`: `this._items.has( itemName )`. -/
def Schema.hasItem (s : Schema) (itemName : String) : Bool :=
  (List.lookup itemName s.items).isSome

/-- `this._schema._extensionChains.get` as a function. -/
def Schema.chainsFn (s : Schema) : ChainMap :=
  fun n => List.lookup n s.extensionChains

/-- JS truthiness of the optional `isExtending` argument (`!!isExtending`):
`null`/`undefined` and the empty string are falsy. -/
def truthy : Option String → Bool
  | none => false
  | some s => s != ""

/-- `this.hasItem( isExtending )` where `isExtending` may be `null`:
a `Map` keyed by strings never has a `null` key. -/
def Schema.hasItemOpt (s : Schema) : Option String → Bool
  | none => false
  | some b => s.hasItem b

/-- `Schema.registerItem`: throws `schema-item-exists` on a duplicate name
and `schema-no-item` on a truthy unregistered base, both before any
mutation; otherwise sets the new (empty) item, then computes the extension
chain against the updated item map (`this.hasItem( isExtending )` runs
after `this._items.set`) and sets it.  In the corner case where the base is
registered only by that very `set` (name and base both the empty string),
`_extensionChains.get` returns `undefined` and `.concat` throws a
`TypeError` with `_items` already mutated.  Errors carry the schema state
at throw time. -/
def Schema.registerItem (s : Schema) (itemName : String) (isExtending : Option String) :
    Except (ErrKind × Schema) Schema :=
  if s.hasItem itemName then
    .error (.schemaItemExists, s)
  else if truthy isExtending && !(s.hasItemOpt isExtending) then
    .error (.schemaNoItem, s)
  else
    let s1 : Schema := { s with items := setAssoc s.items itemName SchemaItem.empty }
    if s1.hasItemOpt isExtending then
      match isExtending with
      | none => .ok { s1 with extensionChains := setAssoc s1.extensionChains itemName [itemName] }
      | some b =>
        match List.lookup b s1.extensionChains with
        | some bchain =>
          .ok { s1 with extensionChains := setAssoc s1.extensionChains itemName (bchain ++ [itemName]) }
        | none => .error (.typeError, s1)
    else
      .ok { s1 with extensionChains := setAssoc s1.extensionChains itemName [itemName] }

/-- A query object (`core.treeModel.SchemaQuery`). -/
structure SchemaQuery where
  name : String
  inside : PathArg
  attr : Option String
deriving DecidableEq, Repr

/-- `Schema.allow`: `this._getItem( query.name ).addAllowed( ... )`;
`_getItem` throws `schema-no-item` for an unregistered name, before any
mutation. -/
def Schema.allow (s : Schema) (q : SchemaQuery) : Except (ErrKind × Schema) Schema :=
  match List.lookup q.name s.items with
  | none => .error (.schemaNoItem, s)
  | some it => .ok { s with items := setAssoc s.items q.name (it.addAllowed q.inside q.attr) }

/-- `Schema.disallow`: `this._getItem( query.name ).addDisallowed( ... )`. -/
def Schema.disallow (s : Schema) (q : SchemaQuery) : Except (ErrKind × Schema) Schema :=
  match List.lookup q.name s.items with
  | none => .error (.schemaNoItem, s)
  | some it => .ok { s with items := setAssoc s.items q.name (it.addDisallowed q.inside q.attr) }

/-- The loop of `checkQuery` over the items of the extension chain for one
rule type: `false` when no item has a matching path, short-circuiting on
the first match, propagating errors. -/
def findMatchingItem (chains : ChainMap) (t : RuleType) (cs : List String) (A : Option String) :
    List SchemaItem → Option Bool
  | [] => some false
  | it :: rest =>
    match it.hasMatchingPath chains t cs A with
    | none => none
    | some true => some true
    | some false => findMatchingItem chains t cs A rest

/-- `Schema.checkQuery`: `false` for an unregistered name; otherwise
normalise the path, materialise the items of the name's extension chain
(`.map` with `_getItem`, whose `schema-no-item` throw is embedded as
`none`), reject on any `DISALLOW` match, accept on any `ALLOW` match,
default to `false`. -/
def Schema.checkQuery (s : Schema) (q : SchemaQuery) : Option Bool :=
  if s.hasItem q.name then
    match List.lookup q.name s.extensionChains with
    | none => none
    | some chain =>
      match chain.mapM (fun n => List.lookup n s.items) with
      | none => none
      | some schemaItems =>
        match findMatchingItem s.chainsFn .disallow q.inside.toList q.attr schemaItems with
        | none => none
        | some true => some false
        | some false =>
          match findMatchingItem s.chainsFn .allow q.inside.toList q.attr schemaItems with
          | none => none
          | some b => some b
  else some false

/-- A node of the external tree model, as far as `_makeItemsPathFromPosition`
consumes it: a `name` and a `parent` that is another node or `null`. -/
inductive ModelElement where
  | root (name : String)
  | child (name : String) (parent : ModelElement)
deriving DecidableEq, Repr

/-- The `name` accessor of a model element. -/
def ModelElement.nodeName : ModelElement → String
  | .root n => n
  | .child n _ => n

/-- The `parent` accessor of a model element (`null` for the root). -/
def ModelElement.parentRef : ModelElement → Option ModelElement
  | .root _ => none
  | .child _ p => some p

/-- A position, as far as the schema consumes it: its `parent` element
(or `null`). -/
structure Position where
  parent : Option ModelElement
deriving DecidableEq, Repr

/-- The names pushed by the `while` loop of `_makeItemsPathFromPosition`
starting at a given element: the element's own name followed by the names
of its ancestors, innermost first. -/
def ModelElement.collectNamesOut : ModelElement → List String
  | .root n => [n]
  | .child n p => n :: p.collectNamesOut

/-- `Schema._makeItemsPathFromPosition`: walk from `position.parent` to the
root collecting names, then reverse, so the result runs root-to-immediate
parent. -/
def Schema.makeItemsPathFromPosition (pos : Position) : List String :=
  (match pos.parent with
   | none => []
   | some e => e.collectNamesOut).reverse

/-- `Schema.checkAtPosition`: `false` for an unregistered name, otherwise
delegate to `checkQuery` with the path derived from the position. -/
def Schema.checkAtPosition (s : Schema) (pos : Position) (name : String) (A : Option String) :
    Option Bool :=
  if s.hasItem name then
    s.checkQuery ⟨name, .list (Schema.makeItemsPathFromPosition pos), A⟩
  else some false

/-- Unwraps one constructor step; the `Schema` constructor performs its
registrations unconditionally and they all succeed. -/
def regStep (r : Except (ErrKind × Schema) Schema) : Schema :=
  match r with
  | .ok s => s
  | .error e => e.2

/-- The `Schema` constructor: register the default abstract entities
`$inline`, `$block`, `$text extends $inline` and allow `$inline` inside
`$block`. -/
def Schema.new : Schema :=
  let s0 : Schema := ⟨[], []⟩
  let s1 := regStep (s0.registerItem "$inline" none)
  let s2 := regStep (s1.registerItem "$block" none)
  let s3 := regStep (s2.registerItem "$text" (some "$inline"))
  regStep (s3.allow ⟨"$inline", .str "$block", none⟩)

/-! Specification-side definitions.  `greedySpec` transcribes the matching
algorithm as the specification words it: scan the candidate path once, left
to right; the cursor over the rule path advances past its head `r` whenever
the current candidate element is-a `r`; the rule is satisfied iff all of the
rule path has been consumed by the end of the scan. -/

/-- The is-a test of the specification: the rule element appears anywhere in
the candidate element's extension chain. -/
def isA (chains : ChainMap) (c r : String) : Bool :=
  match chains c with
  | some chain => chain.contains r
  | none => false

/-- The greedy single-pass subsequence match described by the specification.
An empty rule path is satisfied by every candidate path. -/
def greedySpec (chains : ChainMap) : List String → List String → Bool
  | _, [] => true
  | [], _ :: _ => false
  | c :: cs, r :: rs =>
    if isA chains c r then greedySpec chains cs rs else greedySpec chains cs (r :: rs)

/-- The remainder of the rule path after the greedy scan, total version of
`consumeRulePath` (identical when every candidate name has a chain; an
unregistered candidate makes `consumeRulePath` fail instead). -/
def greedyRem (chains : ChainMap) : List String → List String → List String
  | [], ip => ip
  | c :: cs, ip => greedyRem chains cs (consumeStep chains c ip)

/-- Whether the item holds a rule of the given type, for exactly the given
attribute, whose path is satisfied by the candidate path under the greedy
match. -/
def SchemaItem.specMatch (it : SchemaItem) (chains : ChainMap) (t : RuleType)
    (cs : List String) (A : Option String) : Bool :=
  (it.ruleList t).any fun r => (r.attr == A) && greedySpec chains cs r.path

/-- Whether some item among the given chain of entity names holds a matching
rule of the given type. -/
def Schema.chainHasRule (s : Schema) (t : RuleType) (chain cs : List String)
    (A : Option String) : Bool :=
  chain.any fun n =>
    match List.lookup n s.items with
    | some it => it.specMatch s.chainsFn t cs A
    | none => false

/-- Two rule stores with the same rules up to order. -/
def itemPerm (a b : SchemaItem) : Prop :=
  a.allowed.Perm b.allowed ∧ a.disallowed.Perm b.disallowed

/-- Two item maps with the same keys in the same order whose rule stores
agree up to rule order. -/
def itemsPerm (l l2 : List (String × SchemaItem)) : Prop :=
  List.Forall₂ (fun p q => p.1 = q.1 ∧ itemPerm p.2 q.2) l l2

/-- Relates two optional values by a relation on the values. -/
def optRel (r : α → β → Prop) : Option α → Option β → Prop
  | some a, some b => r a b
  | none, none => True
  | _, _ => False

/-! State-threaded variants of the query operations.  They pass the schema
object through every step that reads it, exactly as the JS call chain
passes `this`, so that "the call leaves the schema unchanged" is a theorem
about them rather than a convention of the embedding.  The only destructive
update in the source, `itemPath.shift()` on line 140, acts on the local
copies produced by `_getPaths` (line 102, `item.path.slice()`), and
`checkPath` is copied on line 121, which is why no step below writes the
schema. -/

/-- State-threaded `consumeRulePath`. -/
def consumeRulePathS : Schema → List String → List String → Option (List String) × Schema
  | s, [], ip => (some ip, s)
  | s, c :: cs, ip =>
    match s.chainsFn c with
    | none => (none, s)
    | some _ => consumeRulePathS s cs (consumeStep s.chainsFn c ip)

/-- State-threaded outer loop of `_hasMatchingPath`. -/
def hasMatchingPathAuxS : Schema → List String → List (List String) → Option Bool × Schema
  | s, _, [] => (some false, s)
  | s, cs, p :: ps =>
    match consumeRulePathS s cs p with
    | (none, s1) => (none, s1)
    | (some rem, s1) =>
      if rem.isEmpty then (some true, s1) else hasMatchingPathAuxS s1 cs ps

/-- State-threaded `SchemaItem._hasMatchingPath`. -/
def SchemaItem.hasMatchingPathS (it : SchemaItem) (s : Schema) (t : RuleType)
    (cs : List String) (A : Option String) : Option Bool × Schema :=
  hasMatchingPathAuxS s cs (it.getPaths t A)

/-- State-threaded loop of `checkQuery` over the chain's items. -/
def findMatchingItemS : Schema → RuleType → List String → Option String → List SchemaItem →
    Option Bool × Schema
  | s, _, _, _, [] => (some false, s)
  | s, t, cs, A, it :: rest =>
    match it.hasMatchingPathS s t cs A with
    | (none, s1) => (none, s1)
    | (some true, s1) => (some true, s1)
    | (some false, s1) => findMatchingItemS s1 t cs A rest

/-- State-threaded `Schema.checkQuery`. -/
def Schema.checkQueryS (s : Schema) (q : SchemaQuery) : Option Bool × Schema :=
  if s.hasItem q.name then
    match List.lookup q.name s.extensionChains with
    | none => (none, s)
    | some chain =>
      match chain.mapM (fun n => List.lookup n s.items) with
      | none => (none, s)
      | some schemaItems =>
        match findMatchingItemS s .disallow q.inside.toList q.attr schemaItems with
        | (none, s1) => (none, s1)
        | (some true, s1) => (some false, s1)
        | (some false, s1) =>
          match findMatchingItemS s1 .allow q.inside.toList q.attr schemaItems with
          | (none, s2) => (none, s2)
          | (some b, s2) => (some b, s2)
  else (some false, s)

/-- State-threaded `Schema.checkAtPosition`. -/
def Schema.checkAtPositionS (s : Schema) (pos : Position) (name : String)
    (A : Option String) : Option Bool × Schema :=
  if s.hasItem name then
    s.checkQueryS ⟨name, .list (Schema.makeItemsPathFromPosition pos), A⟩
  else (some false, s)

/-- `Except.isOk` for the registration result type. -/
def exceptOk : Except (ErrKind × Schema) Schema → Bool
  | .ok _ => true
  | .error _ => false

/-- Schema used in order-independence witnesses: two rules added to `$text`
in one order. -/
def sPermA : Schema :=
  regStep ((regStep (Schema.new.allow ⟨"$text", .str "p", some "bold"⟩)).allow
    ⟨"$text", .str "q", none⟩)

/-- Schema used in order-independence witnesses: the same two rules added to
`$text` in the other order. -/
def sPermB : Schema :=
  regStep ((regStep (Schema.new.allow ⟨"$text", .str "q", none⟩)).allow
    ⟨"$text", .str "p", some "bold"⟩)

example : Schema.new.hasItem "$text" = true := by decide

example : Schema.new.chainsFn "$text" = some ["$inline", "$text"] := by decide

example : Schema.new.checkQuery ⟨"$text", .list ["$block"], none⟩ = some true := by decide

example : Schema.new.checkQuery ⟨"$text", .list ["$block"], some "bold"⟩ = some false := by decide

example : Schema.new.checkQuery ⟨"nope", .list [], none⟩ = some false := by decide

example : Schema.new.checkQuery ⟨"$text", .list ["foo"], none⟩ = none := by decide

/-! Helper lemmas. -/

theorem greedySpec_nil_rule (chains : ChainMap) (cs : List String) :
    greedySpec chains cs [] = true := by
  cases cs <;> rfl

theorem greedyRem_nil (chains : ChainMap) : ∀ cs : List String, greedyRem chains cs [] = [] := by
  intro cs
  induction cs with
  | nil => rfl
  | cons c cs ih => simpa [greedyRem, consumeStep] using ih

theorem greedyRem_isEmpty (chains : ChainMap) :
    ∀ cs ip : List String, (greedyRem chains cs ip).isEmpty = greedySpec chains cs ip := by
  intro cs
  induction cs with
  | nil => intro ip; cases ip <;> rfl
  | cons c cs ih =>
    intro ip
    cases ip with
    | nil =>
      rw [greedyRem, consumeStep, greedyRem_nil, greedySpec_nil_rule]
      rfl
    | cons r rest =>
      cases hc : chains c with
      | none => simp [greedyRem, consumeStep, greedySpec, isA, hc, ih]
      | some chain =>
        simp only [greedyRem, consumeStep, greedySpec, isA, hc]
        cases hct : chain.contains r <;> simp [ih]

theorem consume_of_ok (chains : ChainMap) :
    ∀ cs ip : List String, (cs.all fun c => (chains c).isSome) = true →
      consumeRulePath chains cs ip = some (greedyRem chains cs ip) := by
  intro cs
  induction cs with
  | nil => intro ip h; rfl
  | cons c cs ih =>
    intro ip h
    rw [List.all_cons, Bool.and_eq_true] at h
    obtain ⟨hc, hcs⟩ := h
    obtain ⟨chain, hchain⟩ := Option.isSome_iff_exists.mp hc
    simp only [consumeRulePath, greedyRem, hchain]
    exact ih _ hcs

theorem consume_of_crash (chains : ChainMap) :
    ∀ cs ip : List String, (cs.any fun c => (chains c).isNone) = true →
      consumeRulePath chains cs ip = none := by
  intro cs
  induction cs with
  | nil => intro ip h; simp at h
  | cons c cs ih =>
    intro ip h
    rw [List.any_cons, Bool.or_eq_true] at h
    cases hc : chains c with
    | none => simp [consumeRulePath, hc]
    | some chain =>
      have hcs : (cs.any fun c => (chains c).isNone) = true := by
        rcases h with h | h
        · rw [hc] at h; simp at h
        · exact h
      simp [consumeRulePath, hc, ih _ hcs]

theorem all_isSome_any_isNone (chains : ChainMap) (cs : List String)
    (h : (cs.all fun c => (chains c).isSome) = true) :
    (cs.any fun c => (chains c).isNone) = false := by
  rw [List.any_eq_false]
  intro x hx
  have hx2 := List.all_eq_true.mp h x hx
  cases hcx : chains x with
  | none => rw [hcx] at hx2; simp at hx2
  | some v => simp [hcx]

theorem hasMatchingPathAux_eq_any (chains : ChainMap) (cs : List String)
    (hok : (cs.all fun c => (chains c).isSome) = true) :
    ∀ L : List (List String),
      hasMatchingPathAux chains cs L = some (L.any fun p => greedySpec chains cs p) := by
  intro L
  induction L with
  | nil => rfl
  | cons p ps ih =>
    simp only [hasMatchingPathAux, consume_of_ok chains cs p hok, greedyRem_isEmpty,
      List.any_cons]
    cases hg : greedySpec chains cs p with
    | false => simp [ih]
    | true => simp

theorem hasMatchingPathAux_crash (chains : ChainMap) (cs : List String)
    (hcr : (cs.any fun c => (chains c).isNone) = true)
    (p : List String) (ps : List (List String)) :
    hasMatchingPathAux chains cs (p :: ps) = none := by
  rw [hasMatchingPathAux, consume_of_crash chains cs p hcr]

theorem filterMap_attr_any (A : Option String) (f : List String → Bool) :
    ∀ rs : List Rule,
      ((rs.filterMap fun r => if r.attr == A then some r.path else none).any f)
        = rs.any fun r => (r.attr == A) && f r.path := by
  intro rs
  induction rs with
  | nil => rfl
  | cons r rs ih =>
    cases hA : (r.attr == A) with
    | true =>
      have h2 : r.attr = A := by simpa using hA
      simp [List.filterMap_cons, hA, h2, -List.any_filterMap] at ih ⊢
      rw [ih]
    | false =>
      have h2 : ¬r.attr = A := by simpa using hA
      simp [List.filterMap_cons, hA, h2, -List.any_filterMap] at ih ⊢
      exact ih

theorem hasMatchingPath_eq_specMatch (chains : ChainMap) (it : SchemaItem) (t : RuleType)
    (cs : List String) (A : Option String)
    (hok : (cs.all fun c => (chains c).isSome) = true) :
    it.hasMatchingPath chains t cs A = some (it.specMatch chains t cs A) := by
  rw [SchemaItem.hasMatchingPath, hasMatchingPathAux_eq_any chains cs hok,
    SchemaItem.getPaths, filterMap_attr_any]
  rfl

theorem mapM_lookup_some (items : List (String × SchemaItem)) :
    ∀ chain : List String, (chain.all fun n => (List.lookup n items).isSome) = true →
      ∃ its, chain.mapM (fun n => List.lookup n items) = some its
        ∧ List.Forall₂ (fun n it => List.lookup n items = some it) chain its := by
  intro chain
  induction chain with
  | nil => intro h; exact ⟨[], rfl, List.Forall₂.nil⟩
  | cons n ns ih =>
    intro h
    rw [List.all_cons, Bool.and_eq_true] at h
    obtain ⟨hn, hns⟩ := h
    obtain ⟨it, hit⟩ := Option.isSome_iff_exists.mp hn
    obtain ⟨its, hits, hrel⟩ := ih hns
    refine ⟨it :: its, ?_, List.Forall₂.cons hit hrel⟩
    rw [List.mapM_cons]
    simp only [hit, hits]
    rfl

theorem findMatchingItem_eq_chainHasRule (s : Schema) (t : RuleType) (cs : List String)
    (A : Option String) (hok : (cs.all fun c => (s.chainsFn c).isSome) = true) :
    ∀ (chain : List String) (its : List SchemaItem),
      List.Forall₂ (fun n it => List.lookup n s.items = some it) chain its →
      findMatchingItem s.chainsFn t cs A its = some (s.chainHasRule t chain cs A) := by
  intro chain its hrel
  induction hrel with
  | nil => rfl
  | cons hni hrest ih =>
    rename_i n it ns its2
    rw [findMatchingItem, hasMatchingPath_eq_specMatch s.chainsFn it t cs A hok]
    cases hm : it.specMatch s.chainsFn t cs A with
    | true => simp [Schema.chainHasRule, List.any_cons, hni, hm]
    | false =>
      simp only [Schema.chainHasRule, List.any_cons, hni, hm] at ih ⊢
      simp [ih]

theorem lookup_cons_beq_true {α : Type} {k k1 : String} (hb : (k == k1) = true)
    (v1 : α) (l : List (String × α)) : List.lookup k ((k1, v1) :: l) = some v1 := by
  rw [List.lookup, hb]

theorem lookup_cons_beq_false {α : Type} {k k1 : String} (hb : (k == k1) = false)
    (v1 : α) (l : List (String × α)) : List.lookup k ((k1, v1) :: l) = List.lookup k l := by
  rw [List.lookup, hb]

theorem lookup_map_set {α : Type} (k : String) (v : α) :
    ∀ l : List (String × α), (List.lookup k l).isSome = true →
      List.lookup k (l.map fun p => if p.1 == k then (k, v) else p) = some v := by
  intro l
  induction l with
  | nil => intro h; simp [List.lookup] at h
  | cons p l ih =>
    intro h
    obtain ⟨k1, v1⟩ := p
    simp only [List.map_cons]
    dsimp only
    by_cases hk : k1 = k
    · have hb : (k1 == k) = true := by simp [hk]
      rw [if_pos hb]
      exact lookup_cons_beq_true (by simp) v _
    · have hk2 : ¬k = k1 := fun e => hk (Eq.symm e)
      have hb : (k1 == k) = false := by simp [hk]
      have hb2 : (k == k1) = false := by simp [hk2]
      rw [if_neg (by simp [hb])]
      rw [lookup_cons_beq_false hb2]
      apply ih
      rwa [lookup_cons_beq_false hb2] at h

theorem lookup_append_some {α : Type} (k : String) (v : α) :
    ∀ l l2 : List (String × α), List.lookup k l = some v →
      List.lookup k (l ++ l2) = some v := by
  intro l
  induction l with
  | nil => intro l2 h; simp [List.lookup] at h
  | cons p l ih =>
    intro l2 h
    obtain ⟨k1, v1⟩ := p
    cases hb : (k == k1) with
    | true =>
      rw [lookup_cons_beq_true hb] at h
      rw [List.cons_append, lookup_cons_beq_true hb]
      exact h
    | false =>
      rw [lookup_cons_beq_false hb] at h
      rw [List.cons_append, lookup_cons_beq_false hb]
      exact ih l2 h

theorem lookup_append_self {α : Type} (k : String) (v : α) :
    ∀ l : List (String × α), List.lookup k l = none →
      List.lookup k (l ++ [(k, v)]) = some v := by
  intro l
  induction l with
  | nil =>
    intro h
    rw [List.nil_append]
    exact lookup_cons_beq_true (by simp) v []
  | cons p l ih =>
    intro h
    obtain ⟨k1, v1⟩ := p
    cases hb : (k == k1) with
    | true =>
      rw [lookup_cons_beq_true hb] at h
      exact absurd h (by simp)
    | false =>
      rw [lookup_cons_beq_false hb] at h
      rw [List.cons_append, lookup_cons_beq_false hb]
      exact ih h

theorem setAssoc_of_none {α : Type} (l : List (String × α)) (k : String) (v : α)
    (h : List.lookup k l = none) : setAssoc l k v = l ++ [(k, v)] := by
  rw [setAssoc, h]
  rfl

theorem lookup_setAssoc_self {α : Type} (l : List (String × α)) (k : String) (v : α) :
    List.lookup k (setAssoc l k v) = some v := by
  by_cases h : (List.lookup k l).isSome = true
  · rw [setAssoc, if_pos h]
    exact lookup_map_set k v l h
  · have h2 : List.lookup k l = none := by
      cases hl : List.lookup k l
      · rfl
      · rw [hl] at h; simp at h
    rw [setAssoc_of_none l k v h2]
    exact lookup_append_self k v l h2

theorem hasItem_setAssoc_of_some {s : Schema} {b : String} {it : SchemaItem}
    (hb : List.lookup b s.items = some it) (k : String) (v : SchemaItem)
    (hk : List.lookup k s.items = none) :
    (List.lookup b (setAssoc s.items k v)).isSome = true := by
  rw [setAssoc_of_none s.items k v hk, lookup_append_some b it s.items [(k, v)] hb]
  rfl

theorem any_isNone_all_isSome (chains : ChainMap) (cs : List String)
    (h : (cs.any fun c => (chains c).isNone) = false) :
    (cs.all fun c => (chains c).isSome) = true := by
  rw [List.all_eq_true]
  intro x hx
  have h2 := List.any_eq_false.mp h x hx
  cases hcx : chains x with
  | none => rw [hcx] at h2; simp at h2
  | some v => simp [hcx]

theorem perm_any {α : Type} {l l2 : List α} (h : l.Perm l2) (f : α → Bool) :
    l.any f = l2.any f := by
  rw [Bool.eq_iff_iff, List.any_eq_true, List.any_eq_true]
  constructor
  · rintro ⟨x, hx, hf⟩
    exact ⟨x, h.mem_iff.mp hx, hf⟩
  · rintro ⟨x, hx, hf⟩
    exact ⟨x, h.mem_iff.mpr hx, hf⟩

theorem getPaths_perm {a b : SchemaItem} (h : itemPerm a b) (t : RuleType) (A : Option String) :
    (a.getPaths t A).Perm (b.getPaths t A) := by
  cases t with
  | allow => exact h.1.filterMap _
  | disallow => exact h.2.filterMap _

theorem hasMatchingPathAux_perm (chains : ChainMap) (cs : List String)
    {L L2 : List (List String)} (h : L.Perm L2) :
    hasMatchingPathAux chains cs L = hasMatchingPathAux chains cs L2 := by
  cases hcr : (cs.any fun c => (chains c).isNone) with
  | true =>
    cases L with
    | nil =>
      have h2 : L2 = [] := h.symm.eq_nil
      rw [h2]
    | cons p ps =>
      cases L2 with
      | nil => simpa using h.eq_nil
      | cons q qs =>
        rw [hasMatchingPathAux_crash chains cs hcr p ps,
          hasMatchingPathAux_crash chains cs hcr q qs]
  | false =>
    have hok := any_isNone_all_isSome chains cs hcr
    rw [hasMatchingPathAux_eq_any chains cs hok L, hasMatchingPathAux_eq_any chains cs hok L2,
      perm_any h]

theorem hasMatchingPath_perm (chains : ChainMap) (t : RuleType) (cs : List String)
    (A : Option String) {a b : SchemaItem} (h : itemPerm a b) :
    a.hasMatchingPath chains t cs A = b.hasMatchingPath chains t cs A :=
  hasMatchingPathAux_perm chains cs (getPaths_perm h t A)

theorem itemsPerm_lookup {l l2 : List (String × SchemaItem)} (h : itemsPerm l l2) (n : String) :
    optRel itemPerm (List.lookup n l) (List.lookup n l2) := by
  induction h with
  | nil => trivial
  | cons hpq hrest ih =>
    rename_i p q l1 l3
    obtain ⟨k1, a⟩ := p
    obtain ⟨k2, b⟩ := q
    have hk : k1 = k2 := hpq.1
    have hab : itemPerm a b := hpq.2
    subst hk
    cases hb : (n == k1) with
    | true =>
      rw [lookup_cons_beq_true hb, lookup_cons_beq_true hb]
      exact hab
    | false =>
      rw [lookup_cons_beq_false hb, lookup_cons_beq_false hb]
      exact ih

theorem mapM_lookup_rel {l l2 : List (String × SchemaItem)}
    (hrel : ∀ n, optRel itemPerm (List.lookup n l) (List.lookup n l2)) :
    ∀ chain : List String,
      optRel (List.Forall₂ itemPerm)
        (chain.mapM fun n => List.lookup n l) (chain.mapM fun n => List.lookup n l2) := by
  intro chain
  induction chain with
  | nil => exact List.Forall₂.nil
  | cons n ns ih =>
    have hn := hrel n
    rw [List.mapM_cons, List.mapM_cons]
    cases h1 : List.lookup n l with
    | none =>
      cases h2 : List.lookup n l2 with
      | none => trivial
      | some b => rw [h1, h2] at hn; exact hn.elim
    | some a =>
      cases h2 : List.lookup n l2 with
      | none => rw [h1, h2] at hn; exact hn.elim
      | some b =>
        rw [h1, h2] at hn
        cases hm1 : (ns.mapM fun n => List.lookup n l) with
        | none =>
          cases hm2 : (ns.mapM fun n => List.lookup n l2) with
          | none => trivial
          | some its2 => rw [hm1, hm2] at ih; exact ih.elim
        | some its =>
          cases hm2 : (ns.mapM fun n => List.lookup n l2) with
          | none => rw [hm1, hm2] at ih; exact ih.elim
          | some its2 =>
            rw [hm1, hm2] at ih
            exact List.Forall₂.cons hn ih

theorem findMatchingItem_perm (t : RuleType) (cs : List String) (A : Option String)
    (chains : ChainMap) {its its2 : List SchemaItem} (h : List.Forall₂ itemPerm its its2) :
    findMatchingItem chains t cs A its = findMatchingItem chains t cs A its2 := by
  induction h with
  | nil => rfl
  | cons hab hrest ih =>
    rename_i a b l1 l3
    rw [findMatchingItem, findMatchingItem, hasMatchingPath_perm chains t cs A hab, ih]

theorem mapM_lookup_congr {l l2 : List (String × SchemaItem)} :
    ∀ chain : List String, (∀ n ∈ chain, List.lookup n l = List.lookup n l2) →
      (chain.mapM fun n => List.lookup n l) = chain.mapM fun n => List.lookup n l2 := by
  intro chain
  induction chain with
  | nil => intro h; rfl
  | cons n ns ih =>
    intro h
    rw [List.mapM_cons, List.mapM_cons, h n (List.mem_cons_self n ns),
      ih fun m hm => h m (List.mem_cons_of_mem n hm)]

theorem hasItem_of_itemsPerm {s s2 : Schema} (hit : itemsPerm s.items s2.items) (n : String) :
    s.hasItem n = s2.hasItem n := by
  have h := itemsPerm_lookup hit n
  rw [Schema.hasItem, Schema.hasItem]
  cases h1 : List.lookup n s.items with
  | none =>
    cases h2 : List.lookup n s2.items with
    | none => rfl
    | some b => rw [h1, h2] at h; exact h.elim
  | some a =>
    cases h2 : List.lookup n s2.items with
    | none => rw [h1, h2] at h; exact h.elim
    | some b => rfl

theorem checkQuery_of_perm {s s2 : Schema} (hch : s.extensionChains = s2.extensionChains)
    (hit : itemsPerm s.items s2.items) (q : SchemaQuery) :
    s.checkQuery q = s2.checkQuery q := by
  have hfn : s.chainsFn = s2.chainsFn := by
    funext n
    simp only [Schema.chainsFn]
    rw [hch]
  have hhas := hasItem_of_itemsPerm hit q.name
  simp only [Schema.checkQuery]
  rw [hhas, hfn, ← hch]
  by_cases hq : s2.hasItem q.name = true
  · rw [if_pos hq, if_pos hq]
    cases hchain : List.lookup q.name s.extensionChains with
    | none => rfl
    | some chain =>
      dsimp only
      have hm := mapM_lookup_rel (itemsPerm_lookup hit) chain
      cases hm1 : (chain.mapM fun n => List.lookup n s.items) with
      | none =>
        cases hm2 : (chain.mapM fun n => List.lookup n s2.items) with
        | none => rfl
        | some its2 => rw [hm1, hm2] at hm; exact hm.elim
      | some its =>
        cases hm2 : (chain.mapM fun n => List.lookup n s2.items) with
        | none => rw [hm1, hm2] at hm; exact hm.elim
        | some its2 =>
          rw [hm1, hm2] at hm
          dsimp only
          rw [findMatchingItem_perm .disallow q.inside.toList q.attr s2.chainsFn hm,
            findMatchingItem_perm .allow q.inside.toList q.attr s2.chainsFn hm]
  · rw [if_neg hq, if_neg hq]

theorem checkQuery_local {s s2 : Schema} (q : SchemaQuery) (chain : List String)
    (hch : s.extensionChains = s2.extensionChains)
    (hhas : s.hasItem q.name = s2.hasItem q.name)
    (hchain : List.lookup q.name s.extensionChains = some chain)
    (hlook : ∀ n ∈ chain, List.lookup n s.items = List.lookup n s2.items) :
    s.checkQuery q = s2.checkQuery q := by
  have hfn : s.chainsFn = s2.chainsFn := by
    funext n
    simp only [Schema.chainsFn]
    rw [hch]
  simp only [Schema.checkQuery]
  rw [hhas, hfn, ← hch]
  by_cases hq : s2.hasItem q.name = true
  · rw [if_pos hq, if_pos hq, hchain]
    dsimp only
    rw [mapM_lookup_congr chain hlook]
  · rw [if_neg hq, if_neg hq]

theorem checkQuery_spec_eval (s : Schema) (E : String) (P : List String) (A : Option String)
    (chain : List String)
    (h0 : s.hasItem E = true)
    (h1 : List.lookup E s.extensionChains = some chain)
    (h2 : (chain.all fun n => (List.lookup n s.items).isSome) = true)
    (h3 : (P.all fun c => (s.chainsFn c).isSome) = true) :
    s.checkQuery ⟨E, .list P, A⟩ =
      some (!(s.chainHasRule .disallow chain P A) && s.chainHasRule .allow chain P A) := by
  obtain ⟨its, hits, hrel⟩ := mapM_lookup_some s.items chain h2
  simp only [Schema.checkQuery]
  rw [if_pos h0, h1]
  dsimp only
  rw [hits]
  dsimp only [PathArg.toList]
  rw [findMatchingItem_eq_chainHasRule s .disallow P A h3 chain its hrel]
  cases hd : s.chainHasRule .disallow chain P A with
  | true => simp
  | false =>
    dsimp only
    rw [findMatchingItem_eq_chainHasRule s .allow P A h3 chain its hrel]
    cases ha : s.chainHasRule .allow chain P A <;> simp

theorem consumeRulePathS_eq (s : Schema) :
    ∀ cs ip : List String, consumeRulePathS s cs ip = (consumeRulePath s.chainsFn cs ip, s) := by
  intro cs
  induction cs with
  | nil => intro ip; rfl
  | cons c cs ih =>
    intro ip
    cases hc : s.chainsFn c with
    | none => simp only [consumeRulePathS, consumeRulePath, hc]
    | some chain =>
      simp only [consumeRulePathS, consumeRulePath, hc]
      exact ih _

theorem hasMatchingPathAuxS_eq (s : Schema) (cs : List String) :
    ∀ L, hasMatchingPathAuxS s cs L = (hasMatchingPathAux s.chainsFn cs L, s) := by
  intro L
  induction L with
  | nil => rfl
  | cons p ps ih =>
    simp only [hasMatchingPathAuxS, hasMatchingPathAux, consumeRulePathS_eq s cs p]
    cases hr : consumeRulePath s.chainsFn cs p with
    | none => rfl
    | some rem =>
      cases hre : rem.isEmpty with
      | true => simp [hre]
      | false => simp [hre, ih]

theorem hasMatchingPathS_eq (it : SchemaItem) (s : Schema) (t : RuleType) (cs : List String)
    (A : Option String) :
    it.hasMatchingPathS s t cs A = (it.hasMatchingPath s.chainsFn t cs A, s) :=
  hasMatchingPathAuxS_eq s cs _

theorem findMatchingItemS_eq (t : RuleType) (cs : List String) (A : Option String) :
    ∀ (its : List SchemaItem) (s : Schema),
      findMatchingItemS s t cs A its = (findMatchingItem s.chainsFn t cs A its, s) := by
  intro its
  induction its with
  | nil => intro s; rfl
  | cons it rest ih =>
    intro s
    simp only [findMatchingItemS, findMatchingItem, hasMatchingPathS_eq]
    cases hm : it.hasMatchingPath s.chainsFn t cs A with
    | none => rfl
    | some b =>
      cases b with
      | true => rfl
      | false => simp [ih]

theorem checkQueryS_eq (s : Schema) (q : SchemaQuery) :
    s.checkQueryS q = (s.checkQuery q, s) := by
  simp only [Schema.checkQueryS, Schema.checkQuery]
  by_cases hq : s.hasItem q.name = true
  · rw [if_pos hq, if_pos hq]
    cases hchain : List.lookup q.name s.extensionChains with
    | none => rfl
    | some chain =>
      dsimp only
      cases hm : (chain.mapM fun n => List.lookup n s.items) with
      | none => rfl
      | some its =>
        dsimp only
        rw [findMatchingItemS_eq]
        cases hd : findMatchingItem s.chainsFn .disallow q.inside.toList q.attr its with
        | none => rfl
        | some b =>
          cases b with
          | true => rfl
          | false =>
            dsimp only
            rw [findMatchingItemS_eq]
            cases ha : findMatchingItem s.chainsFn .allow q.inside.toList q.attr its with
            | none => rfl
            | some b2 => cases b2 <;> rfl
  · rw [if_neg hq, if_neg hq]

theorem checkAtPositionS_eq (s : Schema) (pos : Position) (name : String) (A : Option String) :
    s.checkAtPositionS pos name A = (s.checkAtPosition pos name A, s) := by
  simp only [Schema.checkAtPositionS, Schema.checkAtPosition]
  by_cases hq : s.hasItem name = true
  · rw [if_pos hq, if_pos hq]
    exact checkQueryS_eq s _
  · rw [if_neg hq, if_neg hq]

theorem hasItem_false_lookup {s : Schema} {E : String} (h : s.hasItem E = false) :
    List.lookup E s.items = none := by
  rw [Schema.hasItem] at h
  cases hl : List.lookup E s.items
  · rfl
  · rw [hl] at h; simp at h

/-- C1: for a schema state, a registered entity name `E` whose extension
chain consists of registered items, a candidate path `P` of registered
names, and an optional attribute `A`, `checkQuery` returns true iff no item
in `E`'s extension chain has a disallow rule matching `(P, A)` and some
item in the chain has a matching allow rule; a matching disallow forces
false regardless of which chain level declared either rule, and no match at
all yields false (default-deny). -/
theorem claim1_checkQuery_precedence (s : Schema) (E : String) (P : List String)
    (A : Option String) (chain : List String)
    (h0 : s.hasItem E = true)
    (h1 : List.lookup E s.extensionChains = some chain)
    (h2 : (chain.all fun n => (List.lookup n s.items).isSome) = true)
    (h3 : (P.all fun c => (s.chainsFn c).isSome) = true) :
    (s.checkQuery ⟨E, .list P, A⟩ = some true ↔
      (s.chainHasRule .disallow chain P A = false ∧ s.chainHasRule .allow chain P A = true))
    ∧ (s.chainHasRule .disallow chain P A = true →
        s.checkQuery ⟨E, .list P, A⟩ = some false)
    ∧ (s.chainHasRule .disallow chain P A = false →
        s.chainHasRule .allow chain P A = false →
        s.checkQuery ⟨E, .list P, A⟩ = some false) := by
  have he := checkQuery_spec_eval s E P A chain h0 h1 h2 h3
  cases hd : s.chainHasRule .disallow chain P A <;>
    cases ha : s.chainHasRule .allow chain P A <;>
    rw [hd, ha] at he <;>
    simp [he, hd, ha]

/-- Witness for C1 on the default schema: `$text` in `$block` with no
attribute is allowed (via the allow rule inherited from `$inline`) and no
disallow matches. -/
theorem claim1_witness :
    Schema.new.hasItem "$text" = true
    ∧ (Schema.new.checkQuery ⟨"$text", .list ["$block"], none⟩ = some true ↔
        (Schema.new.chainHasRule .disallow ["$inline", "$text"] ["$block"] none = false
          ∧ Schema.new.chainHasRule .allow ["$inline", "$text"] ["$block"] none = true)) :=
  ⟨by decide,
   (claim1_checkQuery_precedence Schema.new "$text" ["$block"] none ["$inline", "$text"]
      (by decide) (by decide) (by decide) (by decide)).1⟩

/-- C2: a stored rule path matches a candidate path by greedy left-to-right
single-pass consumption.  When every candidate name has an extension chain,
the scan of `_hasMatchingPath` over one rule path returns exactly the
remainder computed by the total greedy recursion, the rule is satisfied
(remainder empty) precisely when the specification's greedy matcher
`greedySpec` accepts — the cursor advancing past its head whenever the
current candidate is-a it, with no backtracking — and an empty rule path is
satisfied by every candidate path, including the empty one. -/
theorem claim2_greedy_matching (chains : ChainMap) (C R : List String)
    (h : (C.all fun c => (chains c).isSome) = true) :
    consumeRulePath chains C R = some (greedyRem chains C R)
    ∧ (greedyRem chains C R).isEmpty = greedySpec chains C R
    ∧ greedySpec chains C [] = true :=
  ⟨consume_of_ok chains C R h, greedyRem_isEmpty chains C R, greedySpec_nil_rule chains C⟩

/-- Witness for C2 at a concrete candidate and rule path. -/
theorem claim2_witness :
    ((["$block"].all fun c => (Schema.new.chainsFn c).isSome) = true)
    ∧ (consumeRulePath Schema.new.chainsFn ["$block"] ["$block"]
        = some (greedyRem Schema.new.chainsFn ["$block"] ["$block"])
      ∧ (greedyRem Schema.new.chainsFn ["$block"] ["$block"]).isEmpty
          = greedySpec Schema.new.chainsFn ["$block"] ["$block"]
      ∧ greedySpec Schema.new.chainsFn ["$block"] [] = true) :=
  ⟨by decide, claim2_greedy_matching Schema.new.chainsFn ["$block"] ["$block"] (by decide)⟩

/-- C3: registering `E` with a registered base `B` stores for `E` the chain
of `B` with `E` appended (so `E` is the last element of its own chain);
registering `E` with no base stores the single-element chain `[E]`; and a
stored chain is never modified by any later successful `registerItem`,
`allow` or `disallow` call (in particular later registrations extending `E`
leave `E`'s chain unchanged). -/
theorem claim3_extension_chains :
    (∀ (s : Schema) (E B : String) (bc : List String) (itB : SchemaItem),
      s.hasItem E = false →
      List.lookup B s.items = some itB →
      List.lookup B s.extensionChains = some bc →
      List.lookup E s.extensionChains = none →
      s.registerItem E (some B)
          = .ok ⟨setAssoc s.items E SchemaItem.empty, s.extensionChains ++ [(E, bc ++ [E])]⟩
        ∧ List.lookup E (s.extensionChains ++ [(E, bc ++ [E])]) = some (bc ++ [E])
        ∧ (bc ++ [E]).getLast? = some E)
    ∧ (∀ (s : Schema) (E : String),
      s.hasItem E = false →
      List.lookup E s.extensionChains = none →
      s.registerItem E none
          = .ok ⟨setAssoc s.items E SchemaItem.empty, s.extensionChains ++ [(E, [E])]⟩
        ∧ List.lookup E (s.extensionChains ++ [(E, [E])]) = some [E])
    ∧ (∀ (s : Schema) (E : String) (base : Option String) (n : String) (c : List String)
        (s2 : Schema),
      List.lookup n s.extensionChains = some c →
      List.lookup E s.extensionChains = none →
      s.registerItem E base = .ok s2 →
      List.lookup n s2.extensionChains = some c)
    ∧ (∀ (s : Schema) (q : SchemaQuery) (s2 : Schema),
      s.allow q = .ok s2 → s2.extensionChains = s.extensionChains)
    ∧ (∀ (s : Schema) (q : SchemaQuery) (s2 : Schema),
      s.disallow q = .ok s2 → s2.extensionChains = s.extensionChains) := by
  refine ⟨?_, ?_, ?_, ?_, ?_⟩
  · intro s E B bc itB hE hB hbc hEc
    have hEi := hasItem_false_lookup hE
    have hg1 : ¬s.hasItem E = true := by simp [hE]
    have hg2 : ¬(truthy (some B) && !(s.hasItemOpt (some B))) = true := by
      simp [Schema.hasItemOpt, Schema.hasItem, hB]
    have hP : Schema.hasItemOpt ⟨setAssoc s.items E SchemaItem.empty, s.extensionChains⟩
        (some B) = true := by
      simp only [Schema.hasItemOpt, Schema.hasItem]
      exact hasItem_setAssoc_of_some hB E SchemaItem.empty hEi
    refine ⟨?_, lookup_append_self E (bc ++ [E]) s.extensionChains hEc, by simp⟩
    simp only [Schema.registerItem]
    rw [if_neg hg1, if_neg hg2]
    try dsimp only
    rw [if_pos hP]
    try dsimp only
    rw [hbc]
    try dsimp only
    rw [setAssoc_of_none s.extensionChains E (bc ++ [E]) hEc]
  · intro s E hE hEc
    have hg1 : ¬s.hasItem E = true := by simp [hE]
    have hg2 : ¬(truthy none && !(s.hasItemOpt none)) = true := by simp [truthy]
    refine ⟨?_, lookup_append_self E [E] s.extensionChains hEc⟩
    simp only [Schema.registerItem]
    rw [if_neg hg1, if_neg hg2]
    try dsimp only
    rw [if_neg (by simp [Schema.hasItemOpt])]
    rw [setAssoc_of_none s.extensionChains E [E] hEc]
  · intro s E base n c s2 hn hEc hreg
    simp only [Schema.registerItem] at hreg
    split at hreg
    · simp at hreg
    · split at hreg
      · simp at hreg
      · split at hreg
        · split at hreg
          · injection hreg with h2
            subst h2
            dsimp only
            rw [setAssoc_of_none s.extensionChains E [E] hEc]
            exact lookup_append_some n c s.extensionChains _ hn
          · split at hreg
            · injection hreg with h2
              subst h2
              dsimp only
              rw [setAssoc_of_none s.extensionChains E _ hEc]
              exact lookup_append_some n c s.extensionChains _ hn
            · simp at hreg
        · injection hreg with h2
          subst h2
          dsimp only
          rw [setAssoc_of_none s.extensionChains E [E] hEc]
          exact lookup_append_some n c s.extensionChains _ hn
  · intro s q s2 h
    simp only [Schema.allow] at h
    split at h
    · simp at h
    · injection h with h2
      subst h2
      rfl
  · intro s q s2 h
    simp only [Schema.disallow] at h
    split at h
    · simp at h
    · injection h with h2
      subst h2
      rfl

/-- Witness for C3: concrete registrations and rule additions on the default
schema. -/
theorem claim3_witness :
    (Schema.new.registerItem "p" (some "$block")
        = .ok ⟨setAssoc Schema.new.items "p" SchemaItem.empty,
            Schema.new.extensionChains ++ [("p", ["$block"] ++ ["p"])]⟩
      ∧ List.lookup "p" (Schema.new.extensionChains ++ [("p", ["$block"] ++ ["p"])])
          = some (["$block"] ++ ["p"])
      ∧ (["$block"] ++ ["p"]).getLast? = some "p")
    ∧ (Schema.new.registerItem "q" none
        = .ok ⟨setAssoc Schema.new.items "q" SchemaItem.empty,
            Schema.new.extensionChains ++ [("q", ["q"])]⟩
      ∧ List.lookup "q" (Schema.new.extensionChains ++ [("q", ["q"])]) = some ["q"])
    ∧ List.lookup "$text"
        (regStep (Schema.new.registerItem "p" (some "$block"))).extensionChains
        = some ["$inline", "$text"]
    ∧ (regStep (Schema.new.allow ⟨"$text", .str "p", some "bold"⟩)).extensionChains
        = Schema.new.extensionChains
    ∧ (regStep (Schema.new.disallow ⟨"$text", .str "p", some "bold"⟩)).extensionChains
        = Schema.new.extensionChains :=
  ⟨claim3_extension_chains.1 Schema.new "p" "$block" ["$block"] SchemaItem.empty
      (by decide) (by decide) (by decide) (by decide),
   claim3_extension_chains.2.1 Schema.new "q" (by decide) (by decide),
   claim3_extension_chains.2.2.1 Schema.new "p" (some "$block") "$text" ["$inline", "$text"]
      (regStep (Schema.new.registerItem "p" (some "$block"))) (by decide) (by decide) (by rfl),
   claim3_extension_chains.2.2.2.1 Schema.new ⟨"$text", .str "p", some "bold"⟩
      (regStep (Schema.new.allow ⟨"$text", .str "p", some "bold"⟩)) (by rfl),
   claim3_extension_chains.2.2.2.2 Schema.new ⟨"$text", .str "p", some "bold"⟩
      (regStep (Schema.new.disallow ⟨"$text", .str "p", some "bold"⟩)) (by rfl)⟩

/-- C4 counterexample: the claim that rule matching never raises fails on
the code.  In the default schema, `$inline` stores one allow rule, and
matching it against the candidate path `["foo"]` — `"foo"` being a
free-form token with no extension chain — makes `_hasMatchingPath` call
`indexOf` on `undefined` (embedded as the error value `none`); the same
error surfaces through `checkQuery` on a registered entity. -/
theorem claim4_counterexample :
    List.lookup "$inline" Schema.new.items = some ⟨[⟨["$block"], none⟩], []⟩
    ∧ SchemaItem.hasMatchingPath ⟨[⟨["$block"], none⟩], []⟩ Schema.new.chainsFn .allow
        ["foo"] none = none
    ∧ Schema.new.checkQuery ⟨"$text", .list ["foo"], none⟩ = none :=
  ⟨by decide, by decide, by decide⟩

/-- C4 (amended): rule matching returns a boolean and raises no error
provided every element of the candidate path is a registered entity name;
an unmatched attribute or an empty rule collection simply yields no match
(`false`) for any candidate path, registered or not.  A candidate element
without an extension chain, however, raises a `TypeError` whenever at least
one rule of the queried type and attribute is stored. -/
theorem claim4_matching_total (chains : ChainMap) (it : SchemaItem) (t : RuleType)
    (cs : List String) (A : Option String) :
    (it.getPaths t A = [] → it.hasMatchingPath chains t cs A = some false)
    ∧ ((cs.all fun c => (chains c).isSome) = true →
        (it.hasMatchingPath chains t cs A).isSome = true) := by
  constructor
  · intro h
    rw [SchemaItem.hasMatchingPath, h]
    rfl
  · intro h
    rw [hasMatchingPath_eq_specMatch chains it t cs A h]
    rfl

/-- Witness for C4 (amended): an item without rules yields no match even on
an unregistered candidate, and matching over registered candidates returns
a boolean. -/
theorem claim4_witness :
    (SchemaItem.empty.getPaths .allow none = []
      ∧ SchemaItem.empty.hasMatchingPath Schema.new.chainsFn .allow ["zzz"] none = some false)
    ∧ ((["$block"].all fun c => (Schema.new.chainsFn c).isSome) = true
      ∧ (SchemaItem.hasMatchingPath ⟨[⟨["$block"], none⟩], []⟩ Schema.new.chainsFn .allow
          ["$block"] none).isSome = true) :=
  ⟨⟨by decide,
    (claim4_matching_total Schema.new.chainsFn SchemaItem.empty .allow ["zzz"] none).1
      (by decide)⟩,
   ⟨by decide,
    (claim4_matching_total Schema.new.chainsFn ⟨[⟨["$block"], none⟩], []⟩ .allow ["$block"]
        none).2 (by decide)⟩⟩

/-- C5 counterexample: an empty-string base name is provided and not
registered, yet `registerItem` succeeds instead of raising
`UnknownBaseEntity`, because `!!isExtending` is false for the empty string;
the entity is registered with the single-element chain as if no base had
been given. -/
theorem claim5_counterexample :
    exceptOk (Schema.new.registerItem "x" (some "")) = true
    ∧ Schema.new.hasItem "" = false
    ∧ (regStep (Schema.new.registerItem "x" (some ""))).chainsFn "x" = some ["x"] :=
  ⟨by decide, by decide, by decide⟩

/-- C5 (amended): `registerItem` raises `DuplicateEntity`
(`schema-item-exists`) when the name is already registered, and raises
`UnknownBaseEntity` (`schema-no-item`) when a non-empty base name is
provided but not registered (an empty-string base is falsy in JS and is
treated as no base); in either failure case the error carries the schema
state at throw time, which is exactly the unchanged input registry —
neither the item map nor the extension-chain map is mutated. -/
theorem claim5_register_errors (s : Schema) (name : String) (base : Option String) :
    (s.hasItem name = true → s.registerItem name base = .error (.schemaItemExists, s))
    ∧ (∀ b, base = some b → ¬b = "" → s.hasItem name = false → s.hasItem b = false →
        s.registerItem name base = .error (.schemaNoItem, s)) := by
  constructor
  · intro h
    simp only [Schema.registerItem]
    rw [if_pos h]
  · intro b hb hbne hn hbase
    subst hb
    simp only [Schema.registerItem]
    rw [if_neg (by simp [hn]),
      if_pos (by simp [truthy, hbne, Schema.hasItemOpt, hbase])]

/-- Witness for C5 (amended): a duplicate registration and a registration
with an unknown non-empty base both fail and leave the default schema
unchanged. -/
theorem claim5_witness :
    (Schema.new.hasItem "$block" = true
      ∧ Schema.new.registerItem "$block" none = .error (.schemaItemExists, Schema.new))
    ∧ (Schema.new.hasItem "y" = false
      ∧ Schema.new.hasItem "nonexistent" = false
      ∧ Schema.new.registerItem "y" (some "nonexistent")
          = .error (.schemaNoItem, Schema.new)) :=
  ⟨⟨by decide, (claim5_register_errors Schema.new "$block" none).1 (by decide)⟩,
   ⟨by decide, by decide,
    (claim5_register_errors Schema.new "y" (some "nonexistent")).2 "nonexistent" rfl
      (by decide) (by decide) (by decide)⟩⟩

/-- C6: `checkQuery` and `checkAtPosition` called with an unregistered
entity name return `false` and raise no error, for every candidate path
(or position) and every optional attribute. -/
theorem claim6_unregistered_fails_closed (s : Schema) (name : String) (inside : PathArg)
    (A : Option String) (pos : Position) (h : s.hasItem name = false) :
    s.checkQuery ⟨name, inside, A⟩ = some false
    ∧ s.checkAtPosition pos name A = some false := by
  constructor
  · simp only [Schema.checkQuery]
    rw [if_neg (by simp [h])]
  · simp only [Schema.checkAtPosition]
    rw [if_neg (by simp [h])]

/-- Witness for C6 on the default schema with an unregistered name. -/
theorem claim6_witness :
    Schema.new.hasItem "unregistered" = false
    ∧ Schema.new.checkQuery ⟨"unregistered", .list [], none⟩ = some false
    ∧ Schema.new.checkAtPosition ⟨none⟩ "unregistered" none = some false :=
  ⟨by decide,
   (claim6_unregistered_fails_closed Schema.new "unregistered" (.list []) none ⟨none⟩
      (by decide)).1,
   (claim6_unregistered_fails_closed Schema.new "unregistered" (.list []) none ⟨none⟩
      (by decide)).2⟩

/-- C7: `allow` and `disallow` raise `UnknownEntity` (`schema-no-item`)
when the query's entity name is unregistered, leaving the schema unchanged
(the error carries the state at throw time); when it is registered they
append exactly one rule `(path, attribute)` — a space-delimited string path
split into a name sequence — to that entity's allowed respectively
disallowed collection, and change nothing else. -/
theorem claim7_allow_disallow (s : Schema) (q : SchemaQuery) :
    (List.lookup q.name s.items = none →
      s.allow q = .error (.schemaNoItem, s) ∧ s.disallow q = .error (.schemaNoItem, s))
    ∧ (∀ it, List.lookup q.name s.items = some it →
      s.allow q = .ok
        { s with
          items := setAssoc s.items q.name
            { it with allowed := it.allowed ++ [⟨q.inside.toList, q.attr⟩] } }
      ∧ s.disallow q = .ok
        { s with
          items := setAssoc s.items q.name
            { it with disallowed := it.disallowed ++ [⟨q.inside.toList, q.attr⟩] } }) := by
  constructor
  · intro h
    constructor
    · simp only [Schema.allow, h]
    · simp only [Schema.disallow, h]
  · intro it h
    constructor
    · simp only [Schema.allow, h, SchemaItem.addAllowed]
    · simp only [Schema.disallow, h, SchemaItem.addDisallowed]

/-- Witness for C7: a rejected rule on an unregistered name, and a
string-path rule appended for `$text` (the path being split on spaces). -/
theorem claim7_witness :
    Schema.new.allow ⟨"nope", .str "div p", none⟩ = .error (.schemaNoItem, Schema.new)
    ∧ Schema.new.allow ⟨"$text", .str "div p", some "bold"⟩
        = .ok
          { Schema.new with
            items := setAssoc Schema.new.items "$text"
              { SchemaItem.empty with
                allowed := SchemaItem.empty.allowed
                  ++ [⟨(PathArg.str "div p").toList, some "bold"⟩] } }
    ∧ Schema.new.disallow ⟨"$text", .str "div p", some "bold"⟩
        = .ok
          { Schema.new with
            items := setAssoc Schema.new.items "$text"
              { SchemaItem.empty with
                disallowed := SchemaItem.empty.disallowed
                  ++ [⟨(PathArg.str "div p").toList, some "bold"⟩] } } :=
  ⟨((claim7_allow_disallow Schema.new ⟨"nope", .str "div p", none⟩).1 (by decide)).1,
   ((claim7_allow_disallow Schema.new ⟨"$text", .str "div p", some "bold"⟩).2
      SchemaItem.empty (by decide)).1,
   ((claim7_allow_disallow Schema.new ⟨"$text", .str "div p", some "bold"⟩).2
      SchemaItem.empty (by decide)).2⟩

/-- C8: for every schema state, entity name, optional attribute and
position, `checkAtPosition` returns exactly what `checkQuery` returns on
the path derived from the position; the derived path collects the ancestor
names walking from the immediate parent outward to the root and reverses
them, so it reads root-to-immediate-parent with the immediate parent
last. -/
theorem claim8_checkAtPosition_delegates (s : Schema) (pos : Position) (name : String)
    (A : Option String) :
    s.checkAtPosition pos name A
      = s.checkQuery ⟨name, .list (Schema.makeItemsPathFromPosition pos), A⟩
    ∧ Schema.makeItemsPathFromPosition ⟨none⟩ = []
    ∧ (∀ n : String, Schema.makeItemsPathFromPosition ⟨some (.root n)⟩ = [n])
    ∧ (∀ (n : String) (p : ModelElement),
        Schema.makeItemsPathFromPosition ⟨some (.child n p)⟩
          = Schema.makeItemsPathFromPosition ⟨some p⟩ ++ [n]) := by
  refine ⟨?_, rfl, fun n => rfl, fun n p => ?_⟩
  · simp only [Schema.checkAtPosition]
    by_cases h : s.hasItem name = true
    · rw [if_pos h]
    · rw [if_neg h]
      simp only [Schema.checkQuery]
      rw [if_neg h]
  · simp [Schema.makeItemsPathFromPosition, ModelElement.collectNamesOut]

/-- C9: evaluation results are independent of rule insertion order — two
schema states with identical extension chains whose item maps hold the same
rules per entity up to order give identical `checkQuery` results for every
query — and rules stored on entities outside the queried entity's extension
chain never affect the result: states agreeing on the chains and on the
items of every chain member (arbitrary elsewhere) evaluate every query
identically. -/
theorem claim9_order_independence :
    (∀ (s s2 : Schema) (q : SchemaQuery), s.extensionChains = s2.extensionChains →
      itemsPerm s.items s2.items → s.checkQuery q = s2.checkQuery q)
    ∧ (∀ (s s2 : Schema) (q : SchemaQuery) (chain : List String),
      s.extensionChains = s2.extensionChains →
      s.hasItem q.name = s2.hasItem q.name →
      List.lookup q.name s.extensionChains = some chain →
      (∀ n ∈ chain, List.lookup n s.items = List.lookup n s2.items) →
      s.checkQuery q = s2.checkQuery q) :=
  ⟨fun _ _ q hch hit => checkQuery_of_perm hch hit q,
   fun _ _ q chain hch hhas hchain hlook => checkQuery_local q chain hch hhas hchain hlook⟩

/-- Witness for C9: the two rules of `$text` added in either order give the
same result, and a rule added to `$block` (outside `$text`'s chain, which is
`$inline, $text`) does not change a `$text` query. -/
theorem claim9_witness :
    sPermA.checkQuery ⟨"$text", .list ["p"], some "bold"⟩
        = sPermB.checkQuery ⟨"$text", .list ["p"], some "bold"⟩
    ∧ Schema.new.checkQuery ⟨"$text", .list ["$block"], none⟩
        = (regStep (Schema.new.allow ⟨"$block", .str "x", none⟩)).checkQuery
            ⟨"$text", .list ["$block"], none⟩ := by
  constructor
  · refine claim9_order_independence.1 sPermA sPermB _ (by decide) ?_
    have hA : sPermA.items = [("$inline", ⟨[⟨["$block"], none⟩], []⟩), ("$block", ⟨[], []⟩),
        ("$text", ⟨[⟨["p"], some "bold"⟩, ⟨["q"], none⟩], []⟩)] := by decide
    have hB : sPermB.items = [("$inline", ⟨[⟨["$block"], none⟩], []⟩), ("$block", ⟨[], []⟩),
        ("$text", ⟨[⟨["q"], none⟩, ⟨["p"], some "bold"⟩], []⟩)] := by decide
    show List.Forall₂ _ sPermA.items sPermB.items
    rw [hA, hB]
    refine List.Forall₂.cons ⟨rfl, List.Perm.refl _, List.Perm.refl _⟩ ?_
    refine List.Forall₂.cons ⟨rfl, List.Perm.refl _, List.Perm.refl _⟩ ?_
    refine List.Forall₂.cons ⟨rfl, ?_, List.Perm.refl _⟩ List.Forall₂.nil
    exact List.Perm.swap _ _ _
  · exact claim9_order_independence.2 Schema.new
      (regStep (Schema.new.allow ⟨"$block", .str "x", none⟩)) ⟨"$text", .list ["$block"], none⟩
      ["$inline", "$text"] (by decide) (by decide) (by decide) (by decide)

/-- C10: query evaluation has no side effects.  The state-threaded
translations of `checkQuery` and `checkAtPosition` — which pass the schema
object through every step, the destructive `shift` of the scan acting only
on the copies produced by `_getPaths` and on the copied `checkPath` — return
the schema exactly as it was, together with the value computed by the pure
versions, for every schema state, query, position, name and attribute. -/
theorem claim10_no_side_effects (s : Schema) (q : SchemaQuery) (pos : Position)
    (name : String) (A : Option String) :
    s.checkQueryS q = (s.checkQuery q, s)
    ∧ s.checkAtPositionS pos name A = (s.checkAtPosition pos name A, s) :=
  ⟨checkQueryS_eq s q, checkAtPositionS_eq s pos name A⟩

/-- C1 counterexample: the claim fails as universally stated.  For the
registered entity `$text` and the candidate path `["$block", "foo"]`, no
item in the chain has a matching disallow rule and the inherited allow rule
matches (its path `["$block"]` is consumed by the greedy scan before
`"foo"` is reached), yet `checkQuery` does not return true: the scan still
reads the extension chain of the unregistered `"foo"` and raises a
`TypeError` (the error value `none`). -/
theorem claim1_counterexample :
    Schema.new.hasItem "$text" = true
    ∧ List.lookup "$text" Schema.new.extensionChains = some ["$inline", "$text"]
    ∧ Schema.new.chainHasRule .disallow ["$inline", "$text"] ["$block", "foo"] none = false
    ∧ Schema.new.chainHasRule .allow ["$inline", "$text"] ["$block", "foo"] none = true
    ∧ ¬Schema.new.checkQuery ⟨"$text", .list ["$block", "foo"], none⟩ = some true
    ∧ Schema.new.checkQuery ⟨"$text", .list ["$block", "foo"], none⟩ = none := by
  refine ⟨by decide, by decide, by decide, by decide, by decide, by decide⟩

/-- C2 counterexample: the clause that an empty rule path is satisfied by
every candidate path fails as stated.  With one stored empty-path rule and
the candidate path `["foo"]` (an unregistered name), the greedy matcher
accepts, but the scan raises a `TypeError` (`none`) instead of reporting
the match, because the extension chain of every candidate element is read
even after the rule path is exhausted. -/
theorem claim2_counterexample :
    greedySpec Schema.new.chainsFn ["foo"] [] = true
    ∧ consumeRulePath Schema.new.chainsFn ["foo"] [] = none
    ∧ SchemaItem.hasMatchingPath ⟨[⟨[], none⟩], []⟩ Schema.new.chainsFn .allow ["foo"] none
        = none := by
  refine ⟨by decide, by decide, by decide⟩
